import Mathlib

/-!
# Multitasker: cooperative task switcher for AVR

Shallow embedding of `src/src/Multitasker.h` and `src/src/Multitasker.cpp`.

* The processor is a register file `regs`, a byte-addressed data memory `mem`,
  the 16-bit stack pointer `SP` and the global interrupt flag `iflag`.
  `push r` stores `r` at `SP` and then decrements `SP`; `pop r` increments `SP`
  and then loads `r` (AVR instruction set), both modulo `2^16`.
* The scheduler state is the two statics `msp`, `taskPtr` and, per task object
  (identified by its address), the members `newtask` and `tsp`.
* Every primitive appends the event it performs to `trace`, so that orderings
  (which writes happen between `cli` and `sei`) can be stated.
* `micros()` is an external collaborator: `clock i` is the microsecond count at the
  `i`-th call, and the call returns it as an `unsigned long`, i.e. modulo `2^32`.
-/

namespace Multitasker

/-! ## Data model -/

/-- Events performed by `tasksw`, in program order. -/
inductive Ev
  | push (r : Nat)
  | pop (r : Nat)
  | cli
  | sei
  | wTsp (t : Nat)
  | wMsp
  | wTaskPtr
  | wSP
  | wNewtask (t : Nat)
  | loop
  deriving DecidableEq, Repr

/-- Private members of `class SimpleTask` (Multitasker.h lines 50-51). -/
structure SimpleTask where
  newtask : Bool
  tsp : Nat

/-- Processor state, the statics `msp` and `taskPtr` (Multitasker.cpp lines 34-35),
the task objects by address, and the event trace. `taskPtr = none` is `NULL`. -/
structure Machine where
  regs : Nat → Nat
  mem : Nat → Nat
  SP : Nat
  iflag : Bool
  msp : Nat
  taskPtr : Option Nat
  tasks : Nat → SimpleTask
  trace : List Ev

/-- Constructor `SimpleTask(uint8_t *stack, uint16_t stacksize)`
(Multitasker.h line 41): `tsp(stack+stacksize-1), newtask(true)`. -/
def SimpleTask.new (stack stacksize : Nat) : SimpleTask :=
  { newtask := true, tsp := stack + stacksize - 1 }

/-- Constructor `Task(uint8_t *stack, uint16_t stacksize) : SimpleTask(stack, stacksize)`
(Multitasker.h line 67). -/
def Task.new (stack stacksize : Nat) : SimpleTask :=
  SimpleTask.new stack stacksize

/-- Template `CreateSimpleTask<STACK_SIZE>` (Multitasker.h lines 56-61): the member array
`stack` lives at address `stack`; `sizeof(stack)` is converted to `uint16_t`. -/
def CreateSimpleTask (stack STACK_SIZE : Nat) : SimpleTask :=
  SimpleTask.new stack (STACK_SIZE % 65536)

/-- Template `CreateTask<STACK_SIZE>` (Multitasker.h lines 73-78). -/
def CreateTask (stack STACK_SIZE : Nat) : SimpleTask :=
  Task.new stack (STACK_SIZE % 65536)

/-! ## Processor primitives -/

/-- AVR `push r`: store the register at `SP`, then decrement `SP`. -/
def push (r : Nat) (s : Machine) : Machine :=
  { s with
    mem := fun a => if a = s.SP then s.regs r else s.mem a
    SP := (s.SP + 65535) % 65536
    trace := s.trace ++ [Ev.push r] }

/-- AVR `pop r`: increment `SP`, then load the register from `SP`. -/
def pop (r : Nat) (s : Machine) : Machine :=
  { s with
    regs := fun x => if x = r then s.mem ((s.SP + 1) % 65536) else s.regs x
    SP := (s.SP + 1) % 65536
    trace := s.trace ++ [Ev.pop r] }

/-- Run a block of `push` instructions in order. -/
def pushRegs (rs : List Nat) (s : Machine) : Machine :=
  rs.foldl (fun m r => push r m) s

/-- Run a block of `pop` instructions in order. -/
def popRegs (rs : List Nat) (s : Machine) : Machine :=
  rs.foldl (fun m r => pop r m) s

/-- Registers of the first `asm` block (Multitasker.cpp lines 40-42), in order. -/
def savedRegs : List Nat :=
  [2, 3, 4, 5, 6, 7, 8, 9, 10, 11, 12, 13, 14, 15, 16, 17, 28, 29]

/-- Registers of the second `asm` block (Multitasker.cpp lines 56-58), in order. -/
def restoredRegs : List Nat :=
  [29, 28, 17, 16, 15, 14, 13, 12, 11, 10, 9, 8, 7, 6, 5, 4, 3, 2]

/-- Instruction `cli()`: clear the global interrupt flag. -/
def cli (s : Machine) : Machine :=
  { s with iflag := false, trace := s.trace ++ [Ev.cli] }

/-- Instruction `sei()`: set the global interrupt flag. -/
def sei (s : Machine) : Machine :=
  { s with iflag := true, trace := s.trace ++ [Ev.sei] }

/-! ## The task switcher -/

/-- Line 45: `if (taskPtr!=NULL) taskPtr->tsp=SP; else msp=SP;`. -/
def storeSP (s : Machine) : Machine :=
  match s.taskPtr with
  | some u =>
    { s with
      tasks := fun t => if t = u then { s.tasks u with tsp := s.SP } else s.tasks t
      trace := s.trace ++ [Ev.wTsp u] }
  | none => { s with msp := s.SP, trace := s.trace ++ [Ev.wMsp] }

/-- Assignment to the static `taskPtr` (lines 47 and 51). -/
def setTaskPtr (p : Option Nat) (s : Machine) : Machine :=
  { s with taskPtr := p, trace := s.trace ++ [Ev.wTaskPtr] }

/-- Assignment to the processor stack pointer (lines 48 and 52). -/
def setSP (v : Nat) (s : Machine) : Machine :=
  { s with SP := v, trace := s.trace ++ [Ev.wSP] }

/-- Line 49: `newtask = false` on the receiver. -/
def clearNewtask (this : Nat) (s : Machine) : Machine :=
  { s with
    tasks := fun t => if t = this then { s.tasks this with newtask := false } else s.tasks t
    trace := s.trace ++ [Ev.wNewtask this] }

/-- Line 49: entry into `while (true) task();`. -/
def enterLoop (s : Machine) : Machine :=
  { s with trace := s.trace ++ [Ev.loop] }

/-- How a call of `tasksw` hands control onward: it either pops a saved frame and
returns into the resumed context, or (first activation) never returns and runs
`while (true) task();` on the fresh stack. -/
inductive Outcome
  | returned (s : Machine)
  | working (s : Machine)

/-- Machine state at the moment control is handed onward. -/
def Outcome.state : Outcome → Machine
  | Outcome.returned s => s
  | Outcome.working s => s

/-- Whether the call took the first-activation path. -/
def Outcome.isWorking : Outcome → Bool
  | Outcome.returned _ => false
  | Outcome.working _ => true

/-- Lines 46-53 of `tasksw`: select the target and load its stack pointer. `working`
is the first-activation exit (line 49), `returned` falls through to line 54. -/
def switchTo (this : Nat) (run : Bool) (s : Machine) : Outcome :=
  if run then
    let s1 := setTaskPtr (some this) s
    let s2 := setSP (s1.tasks this).tsp s1
    if (s2.tasks this).newtask then
      Outcome.working (enterLoop (sei (clearNewtask this s2)))
    else
      Outcome.returned s2
  else
    let s1 := setTaskPtr none s
    let s2 := setSP s1.msp s1
    Outcome.returned s2

/-- Function `SimpleTask::tasksw(bool run)` (Multitasker.cpp lines 38-60), called on the task
object at address `this`. -/
def tasksw (s : Machine) (this : Nat) (run : Bool) : Outcome :=
  match switchTo this run (storeSP (cli (pushRegs savedRegs s))) with
  | Outcome.working s1 => Outcome.working s1
  | Outcome.returned s1 => Outcome.returned (popRegs restoredRegs (sei s1))

/-- Method `go()` (Multitasker.h line 44). -/
def go (s : Machine) (this : Nat) : Outcome :=
  tasksw s this true

/-- Method `maintask()` (Multitasker.h line 45). -/
def maintask (s : Machine) (this : Nat) : Outcome :=
  tasksw s this false

/-- Method `isTaskRunning()` (Multitasker.h line 46). -/
def isTaskRunning (s : Machine) (this : Nat) : Bool :=
  s.taskPtr == some this

/-- Method `isMainRunning()` (Multitasker.h line 47). -/
def isMainRunning (s : Machine) : Bool :=
  s.taskPtr == none

/-- Method `runningTaskPtr()` (Multitasker.h line 48). -/
def runningTaskPtr (s : Machine) : Option Nat :=
  s.taskPtr

/-- Default `Task::yield()` (Multitasker.h line 69): `maintask()`. -/
def yield (s : Machine) (this : Nat) : Outcome :=
  maintask s this

/-! ## Executions: switcher calls interleaved with code of the running context -/

/-- One step of an execution: a call of `tasksw` on a task object, or code of the running
context, which leaves registers, memory, `SP` and the interrupt flag in an arbitrary state
but cannot touch the private scheduler state. -/
inductive Step
  | call (this : Nat) (run : Bool)
  | code (regs mem : Nat → Nat) (sp : Nat) (iflag : Bool)

/-- The context a call switches to: the receiver for `run = true`, main (`none`) otherwise. -/
def target (this : Nat) (run : Bool) : Option Nat :=
  if run then some this else none

/-- Whether a step is a switcher call that selects context `c`. -/
def Step.selects (c : Option Nat) : Step → Bool
  | Step.call this run => target this run == c
  | Step.code _ _ _ _ => false

/-- State after one step. -/
def step (s : Machine) : Step → Machine
  | Step.call this run => (tasksw s this run).state
  | Step.code regs mem sp iflag =>
    { s with regs := regs, mem := mem, SP := sp % 65536, iflag := iflag }

/-- State after a sequence of steps. -/
def runSteps (s : Machine) (steps : List Step) : Machine :=
  steps.foldl step s

/-- Freshly booted machine: main is running (`taskPtr = NULL`, Multitasker.cpp line 35),
with the given task objects. -/
def boot (tasks : Nat → SimpleTask) (sp : Nat) : Machine :=
  { regs := fun _ => 0, mem := fun _ => 0, SP := sp % 65536, iflag := true, msp := 0,
    taskPtr := none, tasks := tasks, trace := [] }

/-- Code of the running context, as a step. -/
def Step.ofCode (c : (Nat → Nat) × (Nat → Nat) × Nat × Bool) : Step :=
  Step.code c.1 c.2.1 c.2.2.1 c.2.2.2

/-- Saved-stack-pointer slot of a context: `msp` for main, `tsp` for a task. -/
def slot (s : Machine) : Option Nat → Nat
  | some u => (s.tasks u).tsp
  | none => s.msp

/-- Address written by the `k`-th push of a block that starts at stack pointer `sp`. -/
def frameAddr (sp k : Nat) : Nat :=
  (sp + 65536 - k) % 65536

/-- The slot write of line 45, by the context running on entry. -/
def slotEvent : Option Nat → Ev
  | some u => Ev.wTsp u
  | none => Ev.wMsp

/-- State of `tasksw` after line 45: registers pushed, interrupts off, `SP` recorded. -/
def saved (s : Machine) : Machine :=
  storeSP (cli (pushRegs savedRegs s))

/-- Events a call appended to the trace of the entry state `s`. -/
def newEvents (s : Machine) (o : Outcome) : List Ev :=
  o.state.trace.drop s.trace.length

/-- Example configuration: the task object at address `t` owns the 64-byte stack array at
address `256 * t`. -/
def demoTasks (t : Nat) : SimpleTask :=
  CreateSimpleTask (256 * t) 64

/-- Example boot state: main runs on a stack whose top is at address 2303. -/
def demoBoot : Machine :=
  boot demoTasks 2303

/-- Example execution: main starts task 2, task 2 computes and yields to main. -/
def demoBefore : List Step :=
  [Step.call 2 true, Step.code (fun r => r + 1) (fun _ => 0) 700 true, Step.call 2 false]

/-- Example execution: task 1 computes on its own stack and yields to main. -/
def demoLater : List Step :=
  [Step.code (fun r => 7 * r) (fun _ => 0) 300 false, Step.call 1 false]

/-- Example execution: after its first activation by main, task 1 computes on its own stack,
leaving the rest of memory as it is. -/
def demoBetween : List Step :=
  [Step.code (fun r => 7 * r) (tasksw demoBoot 1 true).state.mem 300 false]

/-! ## Task::delay -/

/-- External `micros()`: the `i`-th call returns the microsecond count `clock i` as an
`unsigned long` (32 bits on AVR). -/
def micros (clock : Nat → Nat) (i : Nat) : Nat :=
  clock i % 4294967296

/-- Conversion `(signed long)` of a 32-bit unsigned value (two's complement). -/
def toSigned32 (x : Nat) : Int :=
  if x < 2147483648 then (x : Int) else (x : Int) - 4294967296

/-- Line 65: `time += (unsigned long)ms * 1000`, with `ms` a `uint16_t`. -/
def endTime (time ms : Nat) : Nat :=
  (time + (ms % 65536) * 1000 % 4294967296) % 4294967296

/-- Loop test of line 66: `(signed long)(time - micros()) > 0`, `now` being the reading. -/
def timeLeft (time now : Nat) : Bool :=
  decide (0 < toSigned32 ((time + 4294967296 - now) % 4294967296))

/-- Observation of a run of `delay`: the number of `yield()` calls made so far and whether
the function has returned. -/
structure DelayRun where
  yields : Nat
  returned : Bool
  deriving DecidableEq, Repr

/-- Line 66: `while ((signed long)(time-micros())>0) yield();`. `fuel` bounds the number of
loop tests that are observed, `i` is the index of the next `micros()` call and `yields`
counts the `yield()` calls made so far. -/
def delayLoop (clock : Nat → Nat) (time : Nat) : Nat → Nat → Nat → DelayRun
  | 0, _, yields => { yields := yields, returned := false }
  | fuel + 1, i, yields =>
    if timeLeft time (micros clock i) then delayLoop clock time fuel (i + 1) (yields + 1)
    else { yields := yields, returned := true }

/-- Function `Task::delay(uint16_t ms)` (Multitasker.cpp lines 63-67). -/
def delay (clock : Nat → Nat) (ms : Nat) (fuel : Nat) : DelayRun :=
  let time := micros clock 0
  let time := endTime time ms
  delayLoop clock time fuel 1 0

/-- A clock that advances one millisecond between consecutive `micros()` calls. -/
def slowPollClock (i : Nat) : Nat :=
  1000 * i

/-- A clock that advances 400 microseconds between consecutive `micros()` calls. -/
def fastPollClock (i : Nat) : Nat :=
  400 * i

/-- Whether an event is an assignment to scheduler state: `taskPtr`, `msp`, a task's `tsp`,
`newtask`, or the processor `SP` (lines 45-52). The stack-pointer adjustment that the `push`
and `pop` instructions perform as part of ordinary stack use is not such an assignment. -/
def Ev.isStateWrite : Ev → Bool
  | Ev.wTsp _ => true
  | Ev.wMsp => true
  | Ev.wTaskPtr => true
  | Ev.wSP => true
  | Ev.wNewtask _ => true
  | _ => false

/-- Whether an event is a write to a saved-stack-pointer slot (`msp` or some `tsp`). -/
def Ev.isSlotWrite : Ev → Bool
  | Ev.wTsp _ => true
  | Ev.wMsp => true
  | _ => false

/-- Whether an event hands control onward: the final pops before the return, or the entry
into the work loop. -/
def Ev.isHandoff : Ev → Bool
  | Ev.pop _ => true
  | Ev.loop => true
  | _ => false

/-- Replay of a trace. `crit` says that a `cli` has been executed and no `sei` since. The
result is true when every assignment to scheduler state happens while `crit` holds. -/
def writesInCritical (crit : Bool) : List Ev → Bool
  | [] => true
  | e :: es =>
    match e with
    | Ev.cli => writesInCritical true es
    | Ev.sei => writesInCritical false es
    | _ => (!e.isStateWrite || crit) && writesInCritical crit es

/-- Replay of a trace from interrupt flag `i`. The result is true when the flag is set at
every hand-off event. -/
def handoffEnabled (i : Bool) : List Ev → Bool
  | [] => true
  | e :: es =>
    match e with
    | Ev.cli => handoffEnabled false es
    | Ev.sei => handoffEnabled true es
    | _ => (!e.isHandoff || i) && handoffEnabled i es

/-! ## Frame lemmas for the primitives -/

theorem pushRegs_cons (r : Nat) (rs : List Nat) (s : Machine) :
    pushRegs (r :: rs) s = pushRegs rs (push r s) := rfl

theorem popRegs_cons (r : Nat) (rs : List Nat) (s : Machine) :
    popRegs (r :: rs) s = popRegs rs (pop r s) := rfl

theorem popRegs_append (rs qs : List Nat) (s : Machine) :
    popRegs (rs ++ qs) s = popRegs qs (popRegs rs s) := by
  simp [popRegs, List.foldl_append]

theorem pushRegs_frame (rs : List Nat) (s : Machine) :
    (pushRegs rs s).regs = s.regs ∧ (pushRegs rs s).iflag = s.iflag ∧
    (pushRegs rs s).msp = s.msp ∧ (pushRegs rs s).taskPtr = s.taskPtr ∧
    (pushRegs rs s).tasks = s.tasks ∧
    (pushRegs rs s).trace = s.trace ++ rs.map Ev.push := by
  induction rs generalizing s with
  | nil => simp [pushRegs]
  | cons r rs ih =>
    obtain ⟨h1, h2, h3, h4, h5, h6⟩ := ih (push r s)
    rw [pushRegs_cons]
    refine ⟨?_, ?_, ?_, ?_, ?_, ?_⟩
    · rw [h1]; rfl
    · rw [h2]; rfl
    · rw [h3]; rfl
    · rw [h4]; rfl
    · rw [h5]; rfl
    · rw [h6]; simp [push]

theorem popRegs_frame (rs : List Nat) (s : Machine) :
    (popRegs rs s).mem = s.mem ∧ (popRegs rs s).iflag = s.iflag ∧
    (popRegs rs s).msp = s.msp ∧ (popRegs rs s).taskPtr = s.taskPtr ∧
    (popRegs rs s).tasks = s.tasks ∧
    (popRegs rs s).trace = s.trace ++ rs.map Ev.pop := by
  induction rs generalizing s with
  | nil => simp [popRegs]
  | cons r rs ih =>
    obtain ⟨h1, h2, h3, h4, h5, h6⟩ := ih (pop r s)
    rw [popRegs_cons]
    refine ⟨?_, ?_, ?_, ?_, ?_, ?_⟩
    · rw [h1]; rfl
    · rw [h2]; rfl
    · rw [h3]; rfl
    · rw [h4]; rfl
    · rw [h5]; rfl
    · rw [h6]; simp [pop]

theorem cli_frame (m : Machine) :
    (cli m).regs = m.regs ∧ (cli m).mem = m.mem ∧ (cli m).SP = m.SP ∧
    (cli m).msp = m.msp ∧ (cli m).taskPtr = m.taskPtr ∧ (cli m).tasks = m.tasks :=
  ⟨rfl, rfl, rfl, rfl, rfl, rfl⟩

theorem storeSP_frame (m : Machine) :
    (storeSP m).regs = m.regs ∧ (storeSP m).mem = m.mem ∧ (storeSP m).SP = m.SP ∧
    (storeSP m).iflag = m.iflag ∧ (storeSP m).taskPtr = m.taskPtr ∧
    ∀ t, ((storeSP m).tasks t).newtask = (m.tasks t).newtask := by
  unfold storeSP
  split
  · rename_i u hu
    refine ⟨rfl, rfl, rfl, rfl, rfl, ?_⟩
    intro t
    by_cases htu : t = u <;> simp_all
  · exact ⟨rfl, rfl, rfl, rfl, rfl, fun _ => rfl⟩

theorem saved_newtask (s : Machine) (t : Nat) :
    ((saved s).tasks t).newtask = (s.tasks t).newtask := by
  unfold saved
  rw [(storeSP_frame _).2.2.2.2.2 t, (cli_frame _).2.2.2.2.2,
    (pushRegs_frame savedRegs s).2.2.2.2.1]

theorem saved_taskPtr (s : Machine) : (saved s).taskPtr = s.taskPtr := by
  unfold saved
  rw [(storeSP_frame _).2.2.2.2.1, (cli_frame _).2.2.2.2.1,
    (pushRegs_frame savedRegs s).2.2.2.1]

theorem saved_SP (s : Machine) : (saved s).SP = (pushRegs savedRegs s).SP := by
  unfold saved
  rw [(storeSP_frame _).2.2.1, (cli_frame _).2.2.1]

theorem saved_mem (s : Machine) : (saved s).mem = (pushRegs savedRegs s).mem := by
  unfold saved
  rw [(storeSP_frame _).2.1, (cli_frame _).2.1]

theorem saved_regs (s : Machine) : (saved s).regs = s.regs := by
  unfold saved
  rw [(storeSP_frame _).1, (cli_frame _).1, (pushRegs_frame savedRegs s).1]

/-- The three paths through `tasksw`. -/
theorem tasksw_first (s : Machine) (this : Nat) (h : (s.tasks this).newtask = true) :
    tasksw s this true = Outcome.working (enterLoop (sei (clearNewtask this
      (setSP ((saved s).tasks this).tsp (setTaskPtr (some this) (saved s)))))) := by
  have hn := saved_newtask s this
  rw [h] at hn
  unfold saved at hn ⊢
  simp [tasksw, switchTo, setSP, setTaskPtr, hn]

theorem tasksw_resume (s : Machine) (this : Nat) (h : (s.tasks this).newtask = false) :
    tasksw s this true = Outcome.returned (popRegs restoredRegs (sei
      (setSP ((saved s).tasks this).tsp (setTaskPtr (some this) (saved s))))) := by
  have hn := saved_newtask s this
  rw [h] at hn
  unfold saved at hn ⊢
  simp [tasksw, switchTo, setSP, setTaskPtr, hn]

theorem tasksw_main (s : Machine) (this : Nat) :
    tasksw s this false = Outcome.returned (popRegs restoredRegs (sei
      (setSP (saved s).msp (setTaskPtr none (saved s))))) := by
  unfold saved
  simp [tasksw, switchTo, setSP, setTaskPtr]

theorem storeSP_trace (m : Machine) :
    (storeSP m).trace = m.trace ++ [slotEvent m.taskPtr] := by
  unfold storeSP
  split
  · rename_i u hu
    rw [hu]; rfl
  · rename_i hu
    rw [hu]; rfl

theorem saved_trace (s : Machine) :
    (saved s).trace = s.trace ++ (savedRegs.map Ev.push ++ [Ev.cli, slotEvent s.taskPtr]) := by
  unfold saved
  rw [storeSP_trace, (cli_frame _).2.2.2.2.1, (pushRegs_frame savedRegs s).2.2.2.1]
  show (pushRegs savedRegs s).trace ++ [Ev.cli] ++ _ = _
  rw [(pushRegs_frame savedRegs s).2.2.2.2.2]
  simp

theorem storeSP_slot_main (m : Machine) (h : m.taskPtr = none) :
    (storeSP m).msp = m.SP ∧ (storeSP m).tasks = m.tasks := by
  unfold storeSP
  rw [h]
  exact ⟨rfl, rfl⟩

theorem storeSP_slot_task (m : Machine) (u : Nat) (h : m.taskPtr = some u) :
    ((storeSP m).tasks u).tsp = m.SP ∧
    (∀ t, t ≠ u → (storeSP m).tasks t = m.tasks t) ∧ (storeSP m).msp = m.msp := by
  unfold storeSP
  rw [h]
  refine ⟨?_, ?_, rfl⟩
  · simp
  · intro t htu
    simp [htu]

theorem saved_slot_main (s : Machine) (h : s.taskPtr = none) :
    (saved s).msp = (pushRegs savedRegs s).SP ∧ (saved s).tasks = s.tasks := by
  have hc : (cli (pushRegs savedRegs s)).taskPtr = none := by
    rw [(cli_frame _).2.2.2.2.1, (pushRegs_frame savedRegs s).2.2.2.1, h]
  obtain ⟨h1, h2⟩ := storeSP_slot_main _ hc
  unfold saved
  rw [h1, h2, (cli_frame _).2.2.1, (cli_frame _).2.2.2.2.2,
    (pushRegs_frame savedRegs s).2.2.2.2.1]
  exact ⟨rfl, rfl⟩

theorem saved_slot_task (s : Machine) (u : Nat) (h : s.taskPtr = some u) :
    ((saved s).tasks u).tsp = (pushRegs savedRegs s).SP ∧
    (∀ t, t ≠ u → (saved s).tasks t = s.tasks t) ∧ (saved s).msp = s.msp := by
  have hc : (cli (pushRegs savedRegs s)).taskPtr = some u := by
    rw [(cli_frame _).2.2.2.2.1, (pushRegs_frame savedRegs s).2.2.2.1, h]
  obtain ⟨h1, h2, h3⟩ := storeSP_slot_task _ u hc
  unfold saved
  refine ⟨?_, ?_, ?_⟩
  · rw [h1, (cli_frame _).2.2.1]
  · intro t htu
    rw [h2 t htu, (cli_frame _).2.2.2.2.2, (pushRegs_frame savedRegs s).2.2.2.2.1]
  · rw [h3, (cli_frame _).2.2.2.1, (pushRegs_frame savedRegs s).2.2.1]

/-- Scheduler state at the hand-off, in terms of the state after line 45. -/
theorem tasksw_state (s : Machine) (this : Nat) (run : Bool) :
    (tasksw s this run).state.taskPtr = target this run ∧
    (tasksw s this run).state.iflag = true ∧
    (tasksw s this run).state.msp = (saved s).msp ∧
    (tasksw s this run).state.mem = (saved s).mem ∧
    (∀ t, ((tasksw s this run).state.tasks t).tsp = ((saved s).tasks t).tsp) ∧
    (∀ t, ((tasksw s this run).state.tasks t).newtask =
      (if run = true ∧ t = this then false else (s.tasks t).newtask)) := by
  have hnt := saved_newtask s
  cases run with
  | false =>
    rw [tasksw_main]
    simp only [Outcome.state]
    generalize saved s = m at hnt ⊢
    obtain ⟨h1, h2, h3, h4, h5, -⟩ := popRegs_frame restoredRegs
      (sei (setSP m.msp (setTaskPtr none m)))
    rw [h1, h2, h3, h4, h5]
    refine ⟨rfl, rfl, rfl, rfl, fun _ => rfl, ?_⟩
    intro t
    simp [sei, setSP, setTaskPtr, hnt]
  | true =>
    cases hn : (s.tasks this).newtask with
    | false =>
      rw [tasksw_resume s this hn]
      simp only [Outcome.state]
      generalize saved s = m at hnt ⊢
      obtain ⟨h1, h2, h3, h4, h5, -⟩ := popRegs_frame restoredRegs
        (sei (setSP (m.tasks this).tsp (setTaskPtr (some this) m)))
      rw [h1, h2, h3, h4, h5]
      refine ⟨rfl, rfl, rfl, rfl, fun _ => rfl, ?_⟩
      intro t
      by_cases ht : t = this
      · subst ht
        simp [sei, setSP, setTaskPtr, hnt, hn]
      · simp [sei, setSP, setTaskPtr, hnt, ht]
    | true =>
      rw [tasksw_first s this hn]
      simp only [Outcome.state]
      generalize saved s = m at hnt ⊢
      refine ⟨rfl, rfl, rfl, rfl, ?_, ?_⟩
      · intro t
        by_cases ht : t = this
        · subst ht
          simp [enterLoop, sei, clearNewtask, setSP, setTaskPtr]
        · simp [enterLoop, sei, clearNewtask, setSP, setTaskPtr, ht]
      · intro t
        by_cases ht : t = this
        · subst ht
          simp [enterLoop, sei, clearNewtask, setSP, setTaskPtr]
        · simp [enterLoop, sei, clearNewtask, setSP, setTaskPtr, ht, hnt]

/-- Events of one call, by path. -/
theorem tasksw_events (s : Machine) (this : Nat) (run : Bool) :
    newEvents s (tasksw s this run) =
      savedRegs.map Ev.push ++ [Ev.cli, slotEvent s.taskPtr, Ev.wTaskPtr, Ev.wSP] ++
        (if run = true ∧ (s.tasks this).newtask = true then [Ev.wNewtask this, Ev.sei, Ev.loop]
         else Ev.sei :: restoredRegs.map Ev.pop) := by
  have key : (tasksw s this run).state.trace = s.trace ++
      (savedRegs.map Ev.push ++ [Ev.cli, slotEvent s.taskPtr, Ev.wTaskPtr, Ev.wSP] ++
        (if run = true ∧ (s.tasks this).newtask = true then [Ev.wNewtask this, Ev.sei, Ev.loop]
         else Ev.sei :: restoredRegs.map Ev.pop)) := by
    cases run with
    | false =>
      rw [tasksw_main]
      simp only [Outcome.state]
      rw [(popRegs_frame restoredRegs _).2.2.2.2.2]
      simp [sei, setSP, setTaskPtr, saved_trace]
    | true =>
      cases hn : (s.tasks this).newtask with
      | false =>
        rw [tasksw_resume s this hn]
        simp only [Outcome.state]
        rw [(popRegs_frame restoredRegs _).2.2.2.2.2]
        simp [sei, setSP, setTaskPtr, saved_trace]
      | true =>
        rw [tasksw_first s this hn]
        simp [Outcome.state, enterLoop, sei, clearNewtask, setSP, setTaskPtr, saved_trace]
  unfold newEvents
  rw [key, List.drop_left]

theorem push_SP_lt (r : Nat) (s : Machine) : (push r s).SP < 65536 :=
  Nat.mod_lt _ (by decide)

theorem pushRegs_SP (rs : List Nat) (s : Machine) (h : s.SP < 65536) :
    (pushRegs rs s).SP = (s.SP + rs.length * 65535) % 65536 := by
  induction rs generalizing s with
  | nil => simp [pushRegs, Nat.mod_eq_of_lt h]
  | cons r rs ih =>
    rw [pushRegs_cons, ih (push r s) (push_SP_lt r s)]
    have hp : (push r s).SP = (s.SP + 65535) % 65536 := rfl
    rw [hp, List.length_cons]
    omega

theorem pushRegs_savedRegs_SP (s : Machine) :
    (pushRegs savedRegs s).SP = (s.SP + 18 * 65535) % 65536 := by
  have h : savedRegs = 2 :: [3, 4, 5, 6, 7, 8, 9, 10, 11, 12, 13, 14, 15, 16, 17, 28, 29] := rfl
  rw [h, pushRegs_cons, pushRegs_SP _ _ (push_SP_lt 2 s)]
  have hp : (push 2 s).SP = (s.SP + 65535) % 65536 := rfl
  rw [hp]
  simp only [List.length_cons, List.length_nil]
  omega

theorem runSteps_append (s : Machine) (xs ys : List Step) :
    runSteps s (xs ++ ys) = runSteps (runSteps s xs) ys := by
  simp [runSteps, List.foldl_append]

theorem runSteps_cons (s : Machine) (x : Step) (xs : List Step) :
    runSteps s (x :: xs) = runSteps (step s x) xs := rfl

theorem runSteps_code_taskPtr (s : Machine) (codes : List ((Nat → Nat) × (Nat → Nat) × Nat × Bool)) :
    (runSteps s (codes.map Step.ofCode)).taskPtr = s.taskPtr := by
  induction codes generalizing s with
  | nil => rfl
  | cons c cs ih =>
    rw [List.map_cons, runSteps_cons, ih]
    rfl

/-! ## Save and restore of a register frame -/

theorem restoredRegs_eq_reverse : restoredRegs = savedRegs.reverse := rfl

theorem pushRegs_mem_untouched (rs : List Nat) (s : Machine) (a : Nat)
    (hlen : rs.length ≤ 65536) (hsp : s.SP < 65536)
    (h : ∀ k, k < rs.length → a ≠ frameAddr s.SP k) :
    (pushRegs rs s).mem a = s.mem a := by
  induction rs generalizing s with
  | nil => rfl
  | cons r rs ih =>
    have hl : rs.length < 65536 := by
      rw [List.length_cons] at hlen; omega
    have hp : (push r s).SP = (s.SP + 65535) % 65536 := rfl
    rw [pushRegs_cons, ih (push r s) (by omega) (push_SP_lt r s)]
    · have h0 := h 0 (by rw [List.length_cons]; omega)
      have h0a : a ≠ s.SP := by
        unfold frameAddr at h0; omega
      show (if a = s.SP then s.regs r else s.mem a) = s.mem a
      rw [if_neg h0a]
    · intro k hk
      have hk1 := h (k + 1) (by rw [List.length_cons]; omega)
      rw [hp]
      unfold frameAddr at hk1 ⊢
      omega

/-- Popping, in reverse order, a block of registers that was pushed from stack pointer
`s.SP` restores `SP` and those registers, provided the pops start at the stack pointer the
pushes ended with and the pushed bytes are still in memory. -/
theorem popRegs_pushRegs (rs : List Nat) (s m : Machine)
    (hlen : rs.length < 65536) (hsp : s.SP < 65536)
    (hSP : m.SP = (pushRegs rs s).SP)
    (hmem : ∀ k, k < rs.length →
      m.mem (frameAddr s.SP k) = (pushRegs rs s).mem (frameAddr s.SP k)) :
    (popRegs rs.reverse m).SP = s.SP ∧ ∀ r ∈ rs, (popRegs rs.reverse m).regs r = s.regs r := by
  induction rs generalizing s with
  | nil => exact ⟨hSP, fun r hr => absurd hr (List.not_mem_nil r)⟩
  | cons r rs ih =>
    have hl : rs.length + 1 < 65536 := by
      rw [List.length_cons] at hlen; exact hlen
    have hp : (push r s).SP = (s.SP + 65535) % 65536 := rfl
    have hregs : (push r s).regs = s.regs := rfl
    have hcell : (push r s).mem s.SP = s.regs r := by
      show (if s.SP = s.SP then s.regs r else s.mem s.SP) = s.regs r
      rw [if_pos rfl]
    rw [pushRegs_cons] at hSP
    have hmem1 : ∀ k, k < rs.length →
        m.mem (frameAddr (push r s).SP k) = (pushRegs rs (push r s)).mem (frameAddr (push r s).SP k) := by
      intro k hk
      have hk1 := hmem (k + 1) (by rw [List.length_cons]; omega)
      rw [pushRegs_cons] at hk1
      have ha : frameAddr (push r s).SP k = frameAddr s.SP (k + 1) := by
        rw [hp]; unfold frameAddr; omega
      rw [ha]
      exact hk1
    obtain ⟨ihSP, ihregs⟩ := ih (push r s) (by omega) (push_SP_lt r s) hSP hmem1
    have hm0 : m.mem s.SP = s.regs r := by
      have h0 := hmem 0 (by rw [List.length_cons]; omega)
      have ha : frameAddr s.SP 0 = s.SP := by
        unfold frameAddr; omega
      rw [ha, pushRegs_cons, pushRegs_mem_untouched rs (push r s) s.SP (by omega)
        (push_SP_lt r s)] at h0
      · rw [h0, hcell]
      · intro k hk
        rw [hp]
        unfold frameAddr
        omega
    have hmemm : (popRegs rs.reverse m).mem = m.mem := (popRegs_frame rs.reverse m).1
    have hnext : ((popRegs rs.reverse m).SP + 1) % 65536 = s.SP := by
      rw [ihSP, hp]; omega
    rw [List.reverse_cons, popRegs_append]
    have hpop : popRegs [r] (popRegs rs.reverse m) = pop r (popRegs rs.reverse m) := rfl
    rw [hpop]
    refine ⟨hnext, ?_⟩
    intro x hx
    show (if x = r then (popRegs rs.reverse m).mem (((popRegs rs.reverse m).SP + 1) % 65536)
      else (popRegs rs.reverse m).regs x) = s.regs x
    by_cases hxr : x = r
    · rw [if_pos hxr, hnext, hmemm, hm0, hxr]
    · rw [if_neg hxr]
      rcases List.mem_cons.mp hx with h1 | h1
      · exact absurd h1 hxr
      · rw [ihregs x h1, hregs]

/-! ## Saved-stack-pointer slots along executions -/

theorem saved_slot_self (s : Machine) :
    slot (saved s) s.taskPtr = (pushRegs savedRegs s).SP := by
  cases hp : s.taskPtr with
  | none => exact (saved_slot_main s hp).1
  | some u => exact (saved_slot_task s u hp).1

theorem saved_slot_other (s : Machine) (c : Option Nat) (h : s.taskPtr ≠ c) :
    slot (saved s) c = slot s c := by
  cases hp : s.taskPtr with
  | none =>
    cases c with
    | none => exact absurd hp h
    | some u =>
      show ((saved s).tasks u).tsp = (s.tasks u).tsp
      rw [(saved_slot_main s hp).2]
  | some v =>
    cases c with
    | none => exact (saved_slot_task s v hp).2.2
    | some u =>
      have huv : u ≠ v := by
        intro e
        apply h
        rw [hp, e]
      show ((saved s).tasks u).tsp = (s.tasks u).tsp
      rw [(saved_slot_task s v hp).2.1 u huv]

theorem tasksw_slot (s : Machine) (this : Nat) (run : Bool) (c : Option Nat) :
    slot (tasksw s this run).state c = slot (saved s) c := by
  obtain ⟨-, -, hmsp, -, htsp, -⟩ := tasksw_state s this run
  cases c with
  | none => exact hmsp
  | some u => exact htsp u

theorem step_slot_other (s : Machine) (e : Step) (c : Option Nat)
    (h : s.taskPtr ≠ c) (he : e.selects c = false) :
    slot (step s e) c = slot s c ∧ (step s e).taskPtr ≠ c := by
  cases e with
  | code regs mem sp iflag =>
    refine ⟨?_, h⟩
    cases c <;> rfl
  | call this run =>
    constructor
    · show slot (tasksw s this run).state c = slot s c
      rw [tasksw_slot, saved_slot_other s c h]
    · show (tasksw s this run).state.taskPtr ≠ c
      rw [(tasksw_state s this run).1]
      intro hc
      simp [Step.selects, hc] at he

theorem runSteps_slot_other (s : Machine) (steps : List Step) (c : Option Nat)
    (h : s.taskPtr ≠ c) (he : ∀ e ∈ steps, e.selects c = false) :
    slot (runSteps s steps) c = slot s c ∧ (runSteps s steps).taskPtr ≠ c := by
  induction steps generalizing s with
  | nil => exact ⟨rfl, h⟩
  | cons e es ih =>
    obtain ⟨h1, h2⟩ := step_slot_other s e c h (he e (List.mem_cons_self _ _))
    obtain ⟨h3, h4⟩ := ih (step s e) h2 (fun x hx => he x (List.mem_cons_of_mem _ hx))
    rw [runSteps_cons]
    exact ⟨h3.trans h1, h4⟩

/-- On the resume path the final state is the pops applied to a state whose stack pointer
is the saved slot of the target and whose memory is the one left by the pushes. -/
theorem tasksw_resume_shape (s : Machine) (this : Nat) (run : Bool)
    (h : (tasksw s this run).isWorking = false) :
    ∃ m, (tasksw s this run).state = popRegs restoredRegs m ∧
      m.SP = slot (saved s) (target this run) ∧ m.mem = (pushRegs savedRegs s).mem := by
  have hmem := saved_mem s
  cases run with
  | false =>
    rw [tasksw_main]
    generalize saved s = x at hmem ⊢
    exact ⟨_, rfl, rfl, hmem⟩
  | true =>
    cases hn : (s.tasks this).newtask with
    | true =>
      rw [tasksw_first s this hn] at h
      exact absurd h (by simp [Outcome.isWorking])
    | false =>
      rw [tasksw_resume s this hn]
      generalize saved s = x at hmem ⊢
      exact ⟨_, rfl, rfl, hmem⟩

/-! ## The first-activation flag along executions -/

theorem step_newtask (s : Machine) (e : Step) (t : Nat) :
    ((step s e).tasks t).newtask =
      (if e.selects (some t) = true then false else (s.tasks t).newtask) := by
  cases e with
  | code regs mem sp iflag => rfl
  | call this run =>
    show (((tasksw s this run).state.tasks t).newtask) = _
    rw [(tasksw_state s this run).2.2.2.2.2 t]
    cases run with
    | false => simp [Step.selects, target]
    | true =>
      by_cases h : t = this
      · subst h; simp [Step.selects, target]
      · have h2 : ¬ this = t := fun h3 => h h3.symm
        simp [Step.selects, target, h, h2]

theorem runSteps_newtask_kept (s : Machine) (steps : List Step) (t : Nat)
    (h : ∀ e ∈ steps, e.selects (some t) = false) :
    ((runSteps s steps).tasks t).newtask = (s.tasks t).newtask := by
  induction steps generalizing s with
  | nil => rfl
  | cons e es ih =>
    rw [runSteps_cons, ih (step s e) (fun x hx => h x (List.mem_cons_of_mem _ hx)),
      step_newtask, h e (List.mem_cons_self _ _)]
    simp

theorem runSteps_newtask_stays_false (s : Machine) (steps : List Step) (t : Nat)
    (h : (s.tasks t).newtask = false) :
    ((runSteps s steps).tasks t).newtask = false := by
  induction steps generalizing s with
  | nil => exact h
  | cons e es ih =>
    rw [runSteps_cons]
    apply ih
    rw [step_newtask, h]
    simp

/-! ## Claims about the scheduler state -/

/-- C1: starting from the boot state, where main is running, after any sequence of `go()`
(`tasksw(true)`) and `maintask()` (`tasksw(false)`) calls on any tasks, interleaved with
arbitrary code of the running contexts, `runningTaskPtr()` right after the most recent
call, and until the next call, is the target of that call: the task `go()` was called on,
or `NULL` after `maintask()`. -/
theorem runningTaskPtr_is_latest_target (tasks : Nat → SimpleTask) (sp : Nat)
    (before : List Step) (this : Nat) (run : Bool)
    (codes : List ((Nat → Nat) × (Nat → Nat) × Nat × Bool)) :
    runningTaskPtr (boot tasks sp) = none ∧
    runningTaskPtr (runSteps (boot tasks sp) (before ++ [Step.call this run])) =
      (if run then some this else none) ∧
    runningTaskPtr (runSteps (boot tasks sp)
      (before ++ [Step.call this run] ++ codes.map Step.ofCode)) =
      (if run then some this else none) := by
  have key : (runSteps (boot tasks sp) (before ++ [Step.call this run])).taskPtr =
      (if run then some this else none) := by
    rw [runSteps_append]
    exact (tasksw_state _ this run).1
  refine ⟨rfl, key, ?_⟩
  unfold runningTaskPtr
  rw [runSteps_append, runSteps_code_taskPtr, key]

/-- C8: for every entry state (interrupt flag set or clear, main or any task running) and
both values of `run`, `tasksw` hands control onward with interrupts enabled: the flag is
set in the state it hands over, and, replaying the events of the call from the entry flag,
it is set at every final pop and at the entry into the work loop. -/
theorem tasksw_hands_over_with_interrupts_enabled (s : Machine) (this : Nat) (run : Bool) :
    (tasksw s this run).state.iflag = true ∧
    handoffEnabled s.iflag (newEvents s (tasksw s this run)) = true := by
  refine ⟨(tasksw_state s this run).2.1, ?_⟩
  rw [tasksw_events]
  cases run <;> cases (s.tasks this).newtask <;> cases s.taskPtr <;> cases s.iflag <;> rfl

/-- C9: every `tasksw` call performs exactly one write to a saved-stack-pointer slot, that
of the context running on entry. If `taskPtr` is `NULL` it writes `msp` and leaves every
task's `tsp` unchanged; otherwise it writes the `tsp` of the task `taskPtr` points to,
leaves the `tsp` of every other task (the receiver included, if different) and `msp`
unchanged. The value written is `SP` after the 18 pushes, i.e. the entry `SP` minus 18
modulo `2^16`. -/
theorem tasksw_writes_slot_of_running_context (s : Machine) (this : Nat) (run : Bool) :
    (pushRegs savedRegs s).SP = (s.SP + 18 * 65535) % 65536 ∧
    match s.taskPtr with
    | none =>
      (newEvents s (tasksw s this run)).filter Ev.isSlotWrite = [Ev.wMsp] ∧
      (tasksw s this run).state.msp = (pushRegs savedRegs s).SP ∧
      ∀ t, ((tasksw s this run).state.tasks t).tsp = (s.tasks t).tsp
    | some u =>
      (newEvents s (tasksw s this run)).filter Ev.isSlotWrite = [Ev.wTsp u] ∧
      ((tasksw s this run).state.tasks u).tsp = (pushRegs savedRegs s).SP ∧
      (∀ t, t ≠ u → ((tasksw s this run).state.tasks t).tsp = (s.tasks t).tsp) ∧
      (tasksw s this run).state.msp = s.msp := by
  refine ⟨pushRegs_savedRegs_SP s, ?_⟩
  obtain ⟨-, -, hmsp, -, htsp, -⟩ := tasksw_state s this run
  have hev := tasksw_events s this run
  cases hp : s.taskPtr with
  | none =>
    obtain ⟨h1, h2⟩ := saved_slot_main s hp
    rw [hp] at hev
    refine ⟨?_, ?_, ?_⟩
    · rw [hev]
      cases run <;> cases (s.tasks this).newtask <;> rfl
    · rw [hmsp, h1]
    · intro t
      rw [htsp t, h2]
  | some u =>
    obtain ⟨h1, h2, h3⟩ := saved_slot_task s u hp
    rw [hp] at hev
    refine ⟨?_, ?_, ?_, ?_⟩
    · rw [hev]
      cases run <;> cases (s.tasks this).newtask <;> rfl
    · rw [htsp u, h1]
    · intro t ht
      rw [htsp t, h2 t ht]
    · rw [hmsp, h3]

/-- C10: on every path through `tasksw` (both values of `run`, first activation included,
any entry state), every assignment to `taskPtr`, `msp`, a task's `tsp`, `newtask` and the
processor `SP` happens after a `cli()` and before the next `sei()`: replaying the events of
the call, starting outside any critical section, no such write is found outside one. -/
theorem tasksw_writes_inside_critical_section (s : Machine) (this : Nat) (run : Bool) :
    writesInCritical false (newEvents s (tasksw s this run)) = true := by
  rw [tasksw_events]
  cases run <;> cases (s.tasks this).newtask <;> cases s.taskPtr <;> rfl

/-- C3: the first-activation flag is consumed exactly once. For a task whose `newtask` is
true and any execution in which `tasksw(true)` has not yet been called on it, `newtask` is
still true; the first `tasksw(true)` on it takes the first-activation path: it clears
`newtask`, performs no pop (registers are those of the caller, the events end with `sei`
and the entry into `while (true) task()`), and does not return. After that, whatever calls
and code follow, `newtask` stays false and every later `tasksw(true)` on the task takes
the resume path, which ends with the pops and returns. -/
theorem newtask_consumed_exactly_once (s : Machine) (this : Nat) (before later : List Step)
    (hnew : (s.tasks this).newtask = true)
    (hfirst : ∀ e ∈ before, e.selects (some this) = false) :
    ((runSteps s before).tasks this).newtask = true ∧
    (tasksw (runSteps s before) this true).isWorking = true ∧
    ((tasksw (runSteps s before) this true).state.tasks this).newtask = false ∧
    (tasksw (runSteps s before) this true).state.regs = (runSteps s before).regs ∧
    newEvents (runSteps s before) (tasksw (runSteps s before) this true) =
      savedRegs.map Ev.push ++ [Ev.cli, slotEvent (runSteps s before).taskPtr, Ev.wTaskPtr,
        Ev.wSP, Ev.wNewtask this, Ev.sei, Ev.loop] ∧
    ((runSteps (tasksw (runSteps s before) this true).state later).tasks this).newtask = false ∧
    (tasksw (runSteps (tasksw (runSteps s before) this true).state later) this true).isWorking
      = false ∧
    newEvents (runSteps (tasksw (runSteps s before) this true).state later)
      (tasksw (runSteps (tasksw (runSteps s before) this true).state later) this true) =
      savedRegs.map Ev.push ++ [Ev.cli,
        slotEvent (runSteps (tasksw (runSteps s before) this true).state later).taskPtr,
        Ev.wTaskPtr, Ev.wSP, Ev.sei] ++ restoredRegs.map Ev.pop := by
  have h1 : ((runSteps s before).tasks this).newtask = true := by
    rw [runSteps_newtask_kept s before this hfirst, hnew]
  have h3 : ((tasksw (runSteps s before) this true).state.tasks this).newtask = false := by
    rw [(tasksw_state _ this true).2.2.2.2.2 this]
    simp
  have h6 := runSteps_newtask_stays_false _ later this h3
  refine ⟨h1, ?_, h3, ?_, ?_, h6, ?_, ?_⟩
  · rw [tasksw_first _ this h1]
    rfl
  · rw [tasksw_first _ this h1]
    exact saved_regs _
  · rw [tasksw_events, h1]
    simp
  · rw [tasksw_resume _ this h6]
    rfl
  · rw [tasksw_events, h6]
    simp

/-- A call that selects the context that is already running (a task calling `go()` on
itself after its first activation, or main calling `maintask()`) saves and restores within
the same call: `SP` and the saved registers are unchanged. -/
theorem tasksw_self_switch (s : Machine) (this : Nat) (run : Bool)
    (hsp : s.SP < 65536) (hself : target this run = s.taskPtr)
    (hresume : (tasksw s this run).isWorking = false) :
    (tasksw s this run).state.SP = s.SP ∧
    ∀ r ∈ savedRegs, (tasksw s this run).state.regs r = s.regs r := by
  obtain ⟨m, hm, hmSP, hmmem⟩ := tasksw_resume_shape s this run hresume
  rw [hself, saved_slot_self] at hmSP
  rw [hm, restoredRegs_eq_reverse]
  apply popRegs_pushRegs savedRegs s m (by decide) hsp hmSP
  intro k _
  rw [hmmem]

/-- C2: save-then-restore of a context is a no-op for that context. A context (main or a
task, the one running in `s`) calls `tasksw` and thereby leaves; other contexts run and
switch among themselves; then a `tasksw` call selects the context again on the resume
(non-first-activation) path. If the 18 bytes the context pushed on its stack are in memory
when the resuming call starts its pops, then at the end of that call `SP` and the registers
r2-r17, r28, r29 have the values they had when the context called `tasksw`. -/
theorem context_save_restore_roundtrip (s : Machine) (t1 : Nat) (run1 : Bool)
    (between : List Step) (t2 : Nat) (run2 : Bool)
    (hsp : s.SP < 65536)
    (hleave : target t1 run1 ≠ s.taskPtr)
    (haway : ∀ e ∈ between, e.selects s.taskPtr = false)
    (hback : target t2 run2 = s.taskPtr)
    (hresume : (tasksw (runSteps (tasksw s t1 run1).state between) t2 run2).isWorking = false)
    (hmem : ∀ k, k < 18 →
      (pushRegs savedRegs (runSteps (tasksw s t1 run1).state between)).mem (frameAddr s.SP k) =
        (pushRegs savedRegs s).mem (frameAddr s.SP k)) :
    (tasksw (runSteps (tasksw s t1 run1).state between) t2 run2).state.SP = s.SP ∧
    ∀ r ∈ savedRegs,
      (tasksw (runSteps (tasksw s t1 run1).state between) t2 run2).state.regs r = s.regs r := by
  have h0 : (tasksw s t1 run1).state.taskPtr ≠ s.taskPtr := by
    rw [(tasksw_state s t1 run1).1]; exact hleave
  have hslot0 : slot (tasksw s t1 run1).state s.taskPtr = (pushRegs savedRegs s).SP := by
    rw [tasksw_slot, saved_slot_self]
  obtain ⟨hslot1, hptr1⟩ := runSteps_slot_other _ between s.taskPtr h0 haway
  obtain ⟨m, hm, hmSP, hmmem⟩ := tasksw_resume_shape _ t2 run2 hresume
  rw [hback, saved_slot_other _ _ hptr1, hslot1, hslot0] at hmSP
  rw [hm, restoredRegs_eq_reverse]
  apply popRegs_pushRegs savedRegs s m (by decide) hsp hmSP
  intro k hk
  rw [hmmem]
  exact hmem k hk

/-- Instance of the round trip: main activates task 1 for the first time, task 1 computes on
its own stack and yields, and main finds its stack pointer and saved registers again. -/
theorem context_save_restore_roundtrip_witness :
    (tasksw (runSteps (tasksw demoBoot 1 true).state demoBetween) 1 false).state.SP
      = demoBoot.SP ∧
    ∀ r ∈ savedRegs,
      (tasksw (runSteps (tasksw demoBoot 1 true).state demoBetween) 1 false).state.regs r
        = demoBoot.regs r :=
  context_save_restore_roundtrip demoBoot 1 true demoBetween 1 false (by decide) (by decide)
    (by intro e he; simp [demoBetween] at he; subst he; rfl) rfl rfl
    (by intro k hk; interval_cases k <;> rfl)

/-- Instance: after task 2 has run and yielded, the first `go()` on task 1 enters the work
loop, and a `go()` on task 1 after it has yielded takes the resume path. -/
theorem newtask_consumed_exactly_once_witness :
    (tasksw (runSteps demoBoot demoBefore) 1 true).isWorking = true ∧
    (tasksw (runSteps (tasksw (runSteps demoBoot demoBefore) 1 true).state demoLater)
      1 true).isWorking = false :=
  have h := newtask_consumed_exactly_once demoBoot 1 demoBefore demoLater rfl
    (by intro e he; simp [demoBefore] at he; rcases he with rfl | rfl | rfl <;> rfl)
  ⟨h.2.1, h.2.2.2.2.2.2.1⟩

/-! ## Claims about `delay` -/

theorem delayLoop_yields_ge (clock : Nat → Nat) (time fuel i y : Nat) :
    y ≤ (delayLoop clock time fuel i y).yields := by
  induction fuel generalizing i y with
  | zero => exact Nat.le_refl y
  | succ n ih =>
    unfold delayLoop
    split
    · exact Nat.le_trans (Nat.le_succ y) (ih (i + 1) (y + 1))
    · exact Nat.le_refl y

theorem timeLeft_iff (s ms c : Nat) (hs : s < 4294967296) (hms : ms ≤ 65535)
    (hc : c < 4294967296) (he : (c + 4294967296 - s) % 4294967296 < 2147483648) :
    timeLeft (endTime s ms) c = true ↔ (c + 4294967296 - s) % 4294967296 < ms * 1000 := by
  unfold timeLeft endTime toSigned32
  rw [decide_eq_true_iff]
  have h1 : ms % 65536 = ms := Nat.mod_eq_of_lt (by omega)
  rw [h1]
  split <;> omega

/-- When the first loop test already finds the interval elapsed, `delay` returns at that
test without any `yield()`. -/
theorem delay_elapsed_at_first_test (clock : Nat → Nat) (ms fuel : Nat) (hms : ms ≤ 65535)
    (hle : clock 0 ≤ clock 1) (hlo : ms * 1000 ≤ clock 1 - clock 0)
    (hhi : clock 1 - clock 0 < 2147483648) :
    delay clock ms (fuel + 1) = { yields := 0, returned := true } := by
  have ht : timeLeft (endTime (micros clock 0) ms) (micros clock 1) = false := by
    rw [Bool.eq_false_iff]
    intro h
    rw [timeLeft_iff (micros clock 0) ms (micros clock 1) (Nat.mod_lt _ (by decide)) hms
      (Nat.mod_lt _ (by decide)) (by unfold micros; omega)] at h
    unfold micros at h
    omega
  unfold delay
  simp only [delayLoop, ht]
  rfl

/-- C4 as stated fails: with a clock that advances one millisecond between the starting
`micros()` reading and the reading of the first loop test (a monotone clock), `delay(1)`
returns without calling `yield()`. -/
theorem delay_one_returns_without_yield :
    Monotone slowPollClock ∧ (1 ≤ 1 ∧ 1 ≤ 65535) ∧
    delay slowPollClock 1 5 = { yields := 0, returned := true } := by
  refine ⟨?_, by decide, by decide⟩
  apply monotone_nat_of_le_succ
  intro n
  unfold slowPollClock
  omega

/-- C4, amended: for `1 ≤ ms ≤ 65535` and a monotonically non-decreasing clock whose
reading at the first loop test is less than `ms * 1000` microseconds after the starting
reading, `delay(ms)` calls `yield()` at least once: as soon as the first loop test has run
the count of `yield()` calls is at least one, in particular when `delay` returns. -/
theorem delay_yields_when_time_is_left (clock : Nat → Nat) (ms fuel : Nat)
    (hms1 : 1 ≤ ms) (hms2 : ms ≤ 65535)
    (hmono : ∀ i, clock i ≤ clock (i + 1))
    (hfirst : clock 1 - clock 0 < ms * 1000) :
    1 ≤ (delay clock ms (fuel + 1)).yields := by
  have hle : clock 0 ≤ clock 1 := hmono 0
  have ht : timeLeft (endTime (micros clock 0) ms) (micros clock 1) = true := by
    rw [timeLeft_iff (micros clock 0) ms (micros clock 1) (Nat.mod_lt _ (by decide)) hms2
      (Nat.mod_lt _ (by decide)) (by unfold micros; omega)]
    unfold micros
    omega
  unfold delay
  simp only [delayLoop, ht, if_true]
  exact delayLoop_yields_ge clock _ fuel 2 1

/-- Instance: `delay(1)` polled every 400 microseconds. -/
theorem delay_yields_when_time_is_left_witness :
    1 ≤ (delay fastPollClock 1 (0 + 1)).yields :=
  delay_yields_when_time_is_left fastPollClock 1 0 (by decide) (by decide)
    (fun i => by unfold fastPollClock; omega) (by decide)

/-- C5: the loop test of `delay` is wraparound-safe. For a 32-bit start reading `s`, a
16-bit `ms` and a later 32-bit reading `c` whose elapsed time `(c - s) mod 2^32` is below
`2^31`, the test `(signed long)(time - c) > 0` with `time = (s + ms*1000) mod 2^32` holds
exactly when the elapsed time is below `ms * 1000`, also when the counter wrapped between
`s` and `c` (`c < s`). The product `ms * 1000` fits in 32 bits. -/
theorem delay_test_wraparound_safe (s ms c : Nat) (hs : s < 4294967296) (hms : ms ≤ 65535)
    (hc : c < 4294967296) (he : (c + 4294967296 - s) % 4294967296 < 2147483648) :
    (timeLeft (endTime s ms) c = true ↔ (c + 4294967296 - s) % 4294967296 < ms * 1000) ∧
    ms * 1000 < 4294967296 ∧ ms % 65536 * 1000 % 4294967296 = ms * 1000 := by
  have h1 : ms % 65536 = ms := Nat.mod_eq_of_lt (by omega)
  have h2 : ms * 1000 < 4294967296 := by omega
  refine ⟨timeLeft_iff s ms c hs hms hc he, h2, ?_⟩
  rw [h1, Nat.mod_eq_of_lt h2]

/-- Instance: the counter wraps between the start reading and the later reading. -/
theorem delay_test_wraparound_safe_witness :
    (timeLeft (endTime 4294967000 1) 200 = true ↔
      (200 + 4294967296 - 4294967000) % 4294967296 < 1 * 1000) ∧
    1 * 1000 < 4294967296 ∧ 1 % 65536 * 1000 % 4294967296 = 1 * 1000 :=
  delay_test_wraparound_safe 4294967000 1 200 (by decide) (by decide) (by decide) (by decide)

/-- C6: for every monotonically non-decreasing clock whose advance between consecutive
`micros()` readings is below `2^31`, `delay(0)` terminates (it has returned as soon as one
loop test has run) and calls `yield()` at most once. -/
theorem delay_zero_returns (clock : Nat → Nat) (fuel : Nat)
    (hmono : ∀ i, clock i ≤ clock (i + 1))
    (hadv : ∀ i, clock (i + 1) - clock i < 2147483648) :
    (delay clock 0 (fuel + 1)).returned = true ∧ (delay clock 0 (fuel + 1)).yields ≤ 1 := by
  rw [delay_elapsed_at_first_test clock 0 fuel (by decide) (hmono 0) (by omega) (hadv 0)]
  exact ⟨rfl, by decide⟩

/-- Instance: `delay(0)` with a clock that advances one millisecond per reading. -/
theorem delay_zero_returns_witness :
    (delay slowPollClock 0 (2 + 1)).returned = true ∧
    (delay slowPollClock 0 (2 + 1)).yields ≤ 1 :=
  delay_zero_returns slowPollClock 2 (fun i => by unfold slowPollClock; omega)
    (fun i => by unfold slowPollClock; omega)

/-! ## Claims about construction -/

/-- C7: for a stack region with base address `b` and size `n ≥ 1` (a `uint16_t`), a newly
constructed task has `tsp = b + n - 1`, the last byte inside the region `[b, b+n)`, and
`newtask = true`. `CreateSimpleTask<N>` and `CreateTask<N>` construct the task from their
own stack array and `sizeof(stack) = N`. -/
theorem new_task_points_at_last_stack_byte (b n : Nat) (hn1 : 1 ≤ n) (hn2 : n ≤ 65535) :
    (SimpleTask.new b n).tsp = b + n - 1 ∧
    b ≤ (SimpleTask.new b n).tsp ∧ (SimpleTask.new b n).tsp < b + n ∧
    (SimpleTask.new b n).tsp + 1 = b + n ∧
    (SimpleTask.new b n).newtask = true ∧
    Task.new b n = SimpleTask.new b n ∧
    CreateSimpleTask b n = SimpleTask.new b n ∧
    CreateTask b n = SimpleTask.new b n := by
  have hmod : n % 65536 = n := Nat.mod_eq_of_lt (by omega)
  have ht : (SimpleTask.new b n).tsp = b + n - 1 := rfl
  refine ⟨ht, ?_, ?_, ?_, rfl, rfl, ?_, ?_⟩
  · rw [ht]; omega
  · rw [ht]; omega
  · rw [ht]; omega
  · unfold CreateSimpleTask; rw [hmod]
  · unfold CreateTask; rw [hmod]; rfl

/-- Instance: a 64-byte stack at address 256. -/
theorem new_task_points_at_last_stack_byte_witness :
    (SimpleTask.new 256 64).tsp = 256 + 64 - 1 ∧
    256 ≤ (SimpleTask.new 256 64).tsp ∧ (SimpleTask.new 256 64).tsp < 256 + 64 ∧
    (SimpleTask.new 256 64).tsp + 1 = 256 + 64 ∧
    (SimpleTask.new 256 64).newtask = true ∧
    Task.new 256 64 = SimpleTask.new 256 64 ∧
    CreateSimpleTask 256 64 = SimpleTask.new 256 64 ∧
    CreateTask 256 64 = SimpleTask.new 256 64 :=
  new_task_points_at_last_stack_byte 256 64 (by decide) (by decide)

end Multitasker
